import Mathlib

/-!
Verification development for the `apply` command of spicetify-cli
(`src/cmd/apply.go`).  The Go source is shallowly embedded: each Go
function the claims depend on is translated into an executable Lean
definition, and the claims are settled as theorems about those
definitions.
-/

set_option linter.unusedVariables false
set_option maxRecDepth 32768

namespace SpicetifyApply

/-! ## File-system and configuration model

`os.Stat` and `os.ReadFile` are modelled as oracles: `stat` tells whether a
path exists, `read` returns the file content (`none` models a read error,
including a missing file).  `path/filepath.Join` is modelled for clean
path components as joining with a slash separator. -/

/-- Model of `path/filepath.Join` on two clean components. -/
def pathJoin (a b : String) : String :=
  a ++ "/" ++ b

/-- Oracle model of the file system seen by one run. -/
structure FS where
  stat : String → Bool
  read : String → Option String

/-- The ambient configuration values read by `cmd/apply.go`
(`userExtensionsFolder`, `userAppsFolder`, `utils.GetExecutableDir()`,
`appDestPath`). -/
structure Config where
  userExtensionsFolder : String
  userAppsFolder : String
  exeDir : String
  appDestPath : String

/-! ## Version gate (`checkStates`, lines 156-188)

`backupstatus.Get` and `spotifystatus.Get` are collaborators; their results
are modelled by the boolean records below.  Console messages are modelled
by an enumeration, one constructor per distinct `utils.Print*` call in
`checkStates`.  The blocking `ReadAnswer` prompt is modelled by taking the
user's answer as an input and recording, in the result, whether the prompt
was invoked and with which default answer. -/

/-- Result of the backup-status collaborator `backupstatus.Get`. -/
structure BackupStat where
  isEmpty : Bool
  isOutdated : Bool

/-- Result of the host-status collaborator `spotifystatus.Get(appPath)`. -/
structure SpotStat where
  isBackupable : Bool
  isMixed : Bool
  isStock : Bool

/-- One constructor per console message emitted by `checkStates`. -/
inductive GateMsg where
  /-- Error: not backed up yet; instructs to run `spicetify backup apply`. -/
  | errNotBackedUp
  /-- Error: not backed up and not backupable; instructs to re-install
  Spotify, then run `spicetify backup apply`. -/
  | errNotBackedUpReinstall
  /-- Warning: Spotify version and backup version are mismatched. -/
  | warnVersionMismatch
  /-- Info: client possibly just had a new update. -/
  | infoJustUpdated
  /-- Info: please run `spicetify backup apply`. -/
  | infoRunBackupApply
  /-- Info: cannot be backed up at this state; re-install, then back up. -/
  | infoReinstallThenBackup
  deriving DecidableEq, Repr

/-- Terminal action of the gate: `exit1` models `os.Exit(1)`. -/
inductive GateOutcome where
  | exit1
  | proceed
  deriving DecidableEq, Repr

/-- What `checkStates` did: the terminal action, the messages printed in
order, and `some d` when the confirmation prompt was invoked with default
answer `d` (`none` when it was never invoked). -/
structure GateResult where
  outcome : GateOutcome
  messages : List GateMsg
  prompt : Option Bool
  deriving DecidableEq, Repr

/-- Embedding of `checkStates` (apply.go lines 156-188).  `answer` is the
user's reply to `ReadAnswer("Continue anyway? [y/N] ", false, true)`,
whose default answer is `false`. -/
def checkStates (back : BackupStat) (spot : SpotStat) (answer : Bool) : GateResult :=
  if back.isEmpty then
    { outcome := .exit1
      messages := [if spot.isBackupable then .errNotBackedUp else .errNotBackedUpReinstall]
      prompt := none }
  else if back.isOutdated then
    { outcome := if answer then .proceed else .exit1
      messages := .warnVersionMismatch ::
        (if spot.isMixed then [.infoJustUpdated, .infoRunBackupApply]
         else if spot.isStock then [.infoRunBackupApply]
         else [.infoReinstallThenBackup])
      prompt := some false }
  else
    { outcome := .proceed, messages := [], prompt := none }

/-! ## The `Apply` pipeline (lines 18-105)

`Apply` is a straight-line sequence of side-effecting phases.  It is
modelled as the ordered list of phases the run performs; `os.Exit(1)`
inside `checkStates` means no later phase runs at all. -/

/-- One constructor per phase of `Apply` (in source order). -/
inductive Step where
  /-- `os.RemoveAll(appDestPath)` before the raw copy. -/
  | removeDest
  /-- `utils.Copy(rawFolder, appDestPath, true, nil)`. -/
  | copyRaw
  /-- `utils.Copy(themedFolder, appDestPath, true, nil)`. -/
  | copyThemed
  /-- `updateCSS()` (user.css transfer). -/
  | updateCSS
  /-- `updateAssets()` (custom assets overwrite). -/
  | updateAssets
  /-- copy of `spicetifyWrapper.js` when `expose_apis` is set. -/
  | copyWrapper
  /-- `apply.AdditionalOptions(...)`. -/
  | additionalOptions
  /-- `pushExtensions(extentionList...)` (extension transfer). -/
  | transferExtensions (names : List String)
  /-- `nodeModuleSymlink()`. -/
  | nodeModuleSymlink
  /-- `pushApps(customAppsList...)` (custom-app transfer). -/
  | transferApps (names : List String)
  /-- `Patch()`. -/
  | patchStep
  deriving DecidableEq, Repr

/-- Embedding of the body of `Apply` after the gate (lines 26-96): the
ordered list of phases performed.  `destApplied` is
`spotifystatus.Get(appDestPath).IsApplied()`; `replaceColors`,
`overwriteAssets`, `exposeApis` and `hasPatch` are the configuration
switches read by `Apply`; the local `extractedStock` flag mirrors the
source exactly. -/
def applyMain (destApplied replaceColors overwriteAssets exposeApis : Bool)
    (exts apps : List String) (hasPatch : Bool) : List Step :=
  let extractedStock := !destApplied
  (if !destApplied then [Step.removeDest, Step.copyRaw] else [])
  ++ (if replaceColors then [Step.copyThemed]
      else if !extractedStock then [Step.copyRaw]
      else [])
  ++ [Step.updateCSS]
  ++ (if overwriteAssets then [Step.updateAssets] else [])
  ++ (if exposeApis then [Step.copyWrapper] else [])
  ++ [Step.additionalOptions]
  ++ (if exts.isEmpty then [] else [Step.transferExtensions exts, Step.nodeModuleSymlink])
  ++ (if apps.isEmpty then [] else [Step.transferApps apps])
  ++ (if hasPatch then [Step.patchStep] else [])

/-- Embedding of `Apply` (lines 18-105): `checkStates` runs first and an
`os.Exit(1)` there means none of the phases run. -/
def applyRun (back : BackupStat) (spot : SpotStat) (answer : Bool)
    (destApplied replaceColors overwriteAssets exposeApis : Bool)
    (exts apps : List String) (hasPatch : Bool) : List Step :=
  match (checkStates back spot answer).outcome with
  | .exit1 => []
  | .proceed => applyMain destApplied replaceColors overwriteAssets exposeApis exts apps hasPatch

/-! ## Extension transfer (`getExtensionPath`, `pushExtensions`, lines 190-246)

`utils.FindSymbol` is not part of this repository; per the spec, for the
`.mjs` remap it matches a line against the Go regular expression
`//\s*spicetify_map\x7b(.+?)\x7d\x7b(.+?)\x7d` and returns the two capture
groups.  The matcher below implements exactly that pattern with Go
(leftmost, backtracking-preferred) semantics: the match may start anywhere
in the line, `\s*` is greedy, and the two `(.+?)` groups are lazy. -/

/-- Character class of Go regexp `\s` (`[\t\n\f\r ]`). -/
def goSpace (c : Char) : Bool :=
  c = ' ' || c = '\t' || c = '\n' || c = '\x0c' || c = '\r'

/-- Lazy `(.+?)\x7d`: shortest non-empty prefix of `cs`, immediately
followed by a closing brace; returns the capture and the suffix after the
brace.  `acc` holds the (reversed) characters committed so far. -/
def lazyCaptureGo (acc : List Char) : List Char → Option (String × List Char)
  | [] => none
  | c :: r => if c = '\x7d' then some (⟨acc.reverse⟩, r) else lazyCaptureGo (c :: acc) r

/-- Lazy `(.+?)\x7d` at the start of `cs` (the capture has at least one
character, so the closing brace is sought from the second position on). -/
def lazyCapture (cs : List Char) : Option (String × List Char) :=
  match cs with
  | [] => none
  | c :: r => lazyCaptureGo [c] r

/-- Backtracking match of `(.+?)\x7d\x7b(.+?)\x7d` at the start: the first
capture is extended one character at a time (shortest first); at each
closing brace the remainder is required to match `\x7b(.+?)\x7d`,
otherwise the brace is absorbed into the first capture and the scan goes
on. -/
def captureAGo (acc : List Char) : List Char → Option (String × String)
  | [] => none
  | c :: r =>
    if c = '\x7d' then
      match r with
      | '\x7b' :: r2 =>
        match lazyCapture r2 with
        | some (b, _) => some (⟨acc.reverse⟩, b)
        | none => captureAGo (c :: acc) r
      | _ => captureAGo (c :: acc) r
    else captureAGo (c :: acc) r

/-- Match of `(.+?)\x7d\x7b(.+?)\x7d` at the start of `cs`. -/
def captureA (cs : List Char) : Option (String × String) :=
  match cs with
  | [] => none
  | c :: r => captureAGo [c] r

/-- Match of the full directive pattern at the start of `cs`:
`//`, then greedy `\s*`, then the literal `spicetify_map\x7b`, then the
two captures. -/
def matchMapAt (cs : List Char) : Option (String × String) :=
  match cs with
  | '/' :: '/' :: r =>
    let r2 := r.dropWhile goSpace
    let pat := "spicetify_map\x7b".data
    if pat.isPrefixOf r2 then captureA (r2.drop pat.length) else none
  | _ => none

/-- Leftmost-match scan over the line's suffixes. -/
def findSymbolMapGo : List Char → Option (String × String)
  | [] => none
  | c :: r =>
    match matchMapAt (c :: r) with
    | some m => some m
    | none => findSymbolMapGo r

/-- Modelled from the spec: `utils.FindSymbol` (not in this repository)
applied to the single clue `//\s*spicetify_map\x7b(.+?)\x7d\x7b(.+?)\x7d`
returns the two capture groups of the leftmost match of that Go regular
expression in `line`, or nothing when the line does not match. -/
def findSymbolMap (line : String) : Option (String × String) :=
  findSymbolMapGo line.data

/-- Replace the first occurrence of `old` (as a character list) in a
character list. -/
def replaceFirstGo (olds news : List Char) : List Char → List Char
  | [] => []
  | c :: cs =>
    if olds.isPrefixOf (c :: cs) then news ++ (c :: cs).drop olds.length
    else c :: replaceFirstGo olds news cs

/-- Embedding of Go `strings.Replace(s, old, new, 1)`: replace the first
occurrence of `old` in `s` by `new` (an empty `old` matches at the start
of `s`). -/
def replaceFirst (s old new : String) : String :=
  if old.data.isEmpty then new ++ s
  else ⟨replaceFirstGo old.data new.data s.data⟩

/-- Split a character list at every newline, keeping empty segments. -/
def splitNLGo : List Char → List (List Char)
  | [] => [[]]
  | c :: r =>
    if c = '\n' then [] :: splitNLGo r
    else
      match splitNLGo r with
      | h :: t => (c :: h) :: t
      | [] => [[c]]

/-- Embedding of Go `strings.Split(content, "\n")`. -/
def splitLines (content : String) : List String :=
  (splitNLGo content.data).map (fun l => ⟨l⟩)

/-- Embedding of Go `strings.Join(lines, "\n")`; this is also what the
spec calls joining a list of contents by a newline. -/
def joinLines : List String → String
  | [] => ""
  | [x] => x
  | x :: xs => x ++ "\n" ++ joinLines xs

/-- Embedding of the loop inside the `utils.ModifyFile` callback of
`pushExtensions` (lines 233-240): `i` is the loop index, the fuel is the
number of iterations left (`len(lines) - i`; `lines` never changes
length).  When a directive is found, `lines[i+1]` is assigned the
replacement; a directive on the last line makes the Go code index
`lines[i+1]` out of bounds, a runtime panic, modelled by `none`. -/
def remapGo (lines : List String) (i : Nat) : Nat → Option (List String)
  | 0 => some lines
  | fuel + 1 =>
    match findSymbolMap (lines.getD i "") with
    | none => remapGo lines (i + 1) fuel
    | some (a, b) =>
      if i + 1 < lines.length then
        remapGo (lines.set (i + 1) (replaceFirst (lines.getD (i + 1) "") a b)) (i + 1) fuel
      else none

/-- Embedding of the whole `utils.ModifyFile` callback of `pushExtensions`
(lines 231-243): split on newlines, run the remap loop, join back.
`none` models a runtime panic of the callback. -/
def remapContent (content : String) : Option String :=
  let lines := splitLines content
  (remapGo lines 0 lines.length).map joinLines

/-- Follows the claim's words, for comparison with `remapGo`: after a
directive on line `i` substitutes line `i+1`, scanning continues from the
line *after* the substituted line (index `i+2`), and a directive on the
last line is a defined no-op. -/
def remapClaimGo (lines : List String) (i : Nat) : Nat → List String
  | 0 => lines
  | fuel + 1 =>
    if i < lines.length then
      match findSymbolMap (lines.getD i "") with
      | none => remapClaimGo lines (i + 1) fuel
      | some (a, b) =>
        if i + 1 < lines.length then
          remapClaimGo (lines.set (i + 1) (replaceFirst (lines.getD (i + 1) "") a b)) (i + 2) fuel
        else lines
    else lines

/-- Follows the claim's words: the remap transformation with scanning
resumed after the substituted line, and never failing. -/
def remapClaimContent (content : String) : String :=
  let lines := splitLines content
  joinLines (remapClaimGo lines 0 lines.length)

/-- Embedding of `getExtensionPath` (lines 190-204): the user extensions
folder is checked first, the bundled `Extensions` folder second, and the
first existing path wins. -/
def getExtensionPath (fs : FS) (cfg : Config) (name : String) : Except String String :=
  let p1 := pathJoin cfg.userExtensionsFolder name
  if fs.stat p1 then .ok p1
  else
    let p2 := pathJoin (pathJoin cfg.exeDir "Extensions") name
    if fs.stat p2 then .ok p2
    else .error "Extension not found"

/-- Simplified model of `path/filepath.Base` for clean slash-separated
paths: the last path component. -/
def baseName (s : String) : String :=
  (s.splitOn "/").getLastD s

/-- Per-item source resolution performed by the loop of `pushExtensions`
(lines 210-223): an absolute path is used directly with its base name as
display name, otherwise the name resolves through `getExtensionPath`.
The result pairs the display name with the resolution outcome; an
`Except.error` outcome is reported with `utils.PrintError` and the loop
continues (the copy and the `.mjs` remap, modelled by `remapContent`,
follow a successful resolution only). -/
def pushExtItem (fs : FS) (cfg : Config) (isAbs : String → Bool) (v : String) :
    String × Except String String :=
  if isAbs v then (baseName v, .ok v)
  else (v, getExtensionPath fs cfg v)

/-- Embedding of the `pushExtensions` loop over its item list: every item
is processed, whatever the outcome of the previous ones. -/
def pushExtensionsModel (fs : FS) (cfg : Config) (isAbs : String → Bool)
    (list : List String) : List (String × Except String String) :=
  list.map (pushExtItem fs cfg isAbs)

/-! ## Custom-app transfer (`getCustomAppPath`, `pushApps`, lines 248-331)

`encoding/json` is not part of this repository.  Per the spec, the
custom-app manifest is a JSON object with a field `subfiles`: an ordered
array of relative path strings; a missing or invalid manifest is treated
as `\x7b\x7d`.  The recursive-descent parser below models
`json.Unmarshal(content, &appManifest\x7b\x7d)` on that subset of JSON
(flat objects whose values are strings or arrays of strings, without
escape sequences): it yields the `subfiles` list (empty when the field is
absent, as Go leaves the `Files` slice nil) and fails on anything it
cannot read, as `Unmarshal` returns an error there. -/

/-- JSON values of the manifest subset: strings and arrays of strings. -/
inductive JVal where
  | str (s : String)
  | arr (xs : List String)
  deriving DecidableEq, Repr

/-- Drop leading JSON whitespace. -/
def skipWS (cs : List Char) : List Char :=
  cs.dropWhile (fun c => c = ' ' || c = '\t' || c = '\n' || c = '\r')

/-- Scan a JSON string body up to the closing quote (no escapes in the
modelled subset). -/
def parseJStringGo (acc : List Char) : List Char → Option (String × List Char)
  | [] => none
  | c :: r =>
    if c = '\"' then some (⟨acc.reverse⟩, r)
    else if c = '\\' then none
    else parseJStringGo (c :: acc) r

/-- Parse a JSON string literal at the start of `cs`. -/
def parseJString (cs : List Char) : Option (String × List Char) :=
  match cs with
  | '\"' :: r => parseJStringGo [] r
  | _ => none

/-- Parse the comma-separated items of a non-empty string array, after the
opening bracket. -/
def parseArrItems (fuel : Nat) (acc : List String) (cs : List Char) :
    Option (List String × List Char) :=
  match fuel with
  | 0 => none
  | fuel + 1 =>
    match parseJString (skipWS cs) with
    | none => none
    | some (s, r) =>
      match skipWS r with
      | ',' :: r2 => parseArrItems fuel (acc ++ [s]) r2
      | ']' :: r2 => some (acc ++ [s], r2)
      | _ => none

/-- Parse a JSON value of the modelled subset. -/
def parseJVal (fuel : Nat) (cs : List Char) : Option (JVal × List Char) :=
  match skipWS cs with
  | '\"' :: r =>
    match parseJStringGo [] r with
    | some (s, r2) => some (.str s, r2)
    | none => none
  | '[' :: r =>
    match skipWS r with
    | ']' :: r2 => some (.arr [], r2)
    | _ =>
      match parseArrItems fuel [] r with
      | some (xs, r2) => some (.arr xs, r2)
      | none => none
  | _ => none

/-- Parse the members of a non-empty JSON object, after the opening
brace. -/
def parseMembers (fuel : Nat) (acc : List (String × JVal)) (cs : List Char) :
    Option (List (String × JVal) × List Char) :=
  match fuel with
  | 0 => none
  | fuel + 1 =>
    match parseJString (skipWS cs) with
    | none => none
    | some (k, r) =>
      match skipWS r with
      | ':' :: r2 =>
        match parseJVal fuel r2 with
        | none => none
        | some (v, r3) =>
          match skipWS r3 with
          | ',' :: r4 => parseMembers fuel (acc ++ [(k, v)]) r4
          | '\x7d' :: r4 => some (acc ++ [(k, v)], r4)
          | _ => none
      | _ => none

/-- Parse a top-level JSON object of the modelled subset. -/
def parseTopObject (fuel : Nat) (cs : List Char) :
    Option (List (String × JVal) × List Char) :=
  match skipWS cs with
  | '\x7b' :: r =>
    match skipWS r with
    | '\x7d' :: r2 => some ([], r2)
    | _ => parseMembers fuel [] r
  | _ => none

/-- Modelled from the spec: `json.Unmarshal(content, &appManifest)` (the
`encoding/json` collaborator, outside this repository) on the manifest
subset of JSON.  `some xs` is a successful parse with `subfiles` list
`xs` (`[]` when the field is absent); `none` is an `Unmarshal` error, in
which case `pushApps` skips the subfile concatenation. -/
def parseManifest (s : String) : Option (List String) :=
  match parseTopObject (s.data.length + 1) s.data with
  | none => none
  | some (members, rest) =>
    if (skipWS rest).isEmpty then
      match members.lookup "subfiles" with
      | none => some []
      | some (.arr xs) => some xs
      | some (.str _) => none
    else none

/-- Embedding of the `fmt.Sprintf` template of `pushApps` (lines
308-314), byte for byte, with its three substituted fields as
parameters (the source passes `appName` for both name fields). -/
def jsTemplate (n1 n2 payload : String) : String :=
  "((\"undefined\"!=typeof self?self:global).webpackChunkopen=(\"undefined\"!=typeof self?self:global).webpackChunkopen||[])\n.push([[\"" ++ n1 ++ "\"],\x7b\"" ++ n2 ++ "\":(e,t,n)=>\x7b\n\"use strict\";n.r(t),n.d(t,\x7bdefault:()=>render\x7d);\n" ++ payload ++ "\n\x7d\x7d]);"

/-- Embedding of `getCustomAppPath` (lines 248-262): the user custom-apps
folder is checked first, the bundled `CustomApps` folder second, and the
first existing path wins. -/
def getCustomAppPath (fs : FS) (cfg : Config) (name : String) : Except String String :=
  let p1 := pathJoin cfg.userAppsFolder name
  if fs.stat p1 then .ok p1
  else
    let p2 := pathJoin (pathJoin cfg.exeDir "CustomApps") name
    if fs.stat p2 then .ok p2
    else .error "Custom app not found"

/-- Outcome of one iteration of the `pushApps` loop.  `done` lists the
destination writes attempted for the app, in source order
(`<name>.json`, `<name>.js`, `<name>.css`), each as path and content;
writes happen only on this constructor. -/
inductive AppResult where
  /-- resolution failed; `utils.PrintError` and `continue`. -/
  | notFound
  /-- `index.js` could not be read; `utils.PrintError` and `continue`. -/
  | noIndex
  /-- app processed; the three artifact writes were attempted. -/
  | done (writes : List (String × String))
  deriving DecidableEq, Repr

/-- The destination writes an `AppResult` attempted. -/
def writesOf : AppResult → List (String × String)
  | .done ws => ws
  | _ => []

/-- Embedding of one iteration of the `pushApps` loop (lines 269-330).
Each `os.WriteFile` call returns an error value that the source discards;
this is modelled by consulting the `writeOk` oracle and ignoring the
result. -/
def pushOneApp (fs : FS) (cfg : Config) (writeOk : String → Bool) (app : String) : AppResult :=
  let appName := "spicetify-routes-" ++ app
  match getCustomAppPath fs cfg app with
  | .error _ => .notFound
  | .ok customAppPath =>
    match fs.read (pathJoin customAppPath "index.js") with
    | none => .noIndex
    | some jsFileContent =>
      let manifestFileContent :=
        (fs.read (pathJoin customAppPath "manifest.json")).getD "\x7b\x7d"
      let jsonPath := pathJoin (pathJoin cfg.appDestPath "xpui") (appName ++ ".json")
      let _errJson := writeOk jsonPath
      let payload :=
        match parseManifest manifestFileContent with
        | none => jsFileContent
        | some files =>
          files.foldl
            (fun acc subfile =>
              match fs.read (pathJoin customAppPath subfile) with
              | none => acc
              | some subfileContent => acc ++ "\n" ++ subfileContent)
            jsFileContent
      let jsPath := pathJoin (pathJoin cfg.appDestPath "xpui") (appName ++ ".js")
      let _errJs := writeOk jsPath
      let cssContent := (fs.read (pathJoin customAppPath "style.css")).getD ""
      let cssPath := pathJoin (pathJoin cfg.appDestPath "xpui") (appName ++ ".css")
      let _errCss := writeOk cssPath
      .done [(jsonPath, manifestFileContent),
             (jsPath, jsTemplate appName appName payload),
             (cssPath, cssContent)]

/-- Embedding of the `pushApps` loop over its item list: every app is
processed, whatever the outcome of the previous ones (the loop body has
no cross-iteration state). -/
def pushAppsModel (fs : FS) (cfg : Config) (writeOk : String → Bool)
    (list : List String) : List (String × AppResult) :=
  list.map (fun app => (app, pushOneApp fs cfg writeOk app))

/-! ## Claim theorems -/

/-- C1: whenever the backup state is Empty, `checkStates` exits the
process with a non-zero status regardless of the host state, never
invokes the confirmation prompt, emits exactly one error message — the
back-up instruction when the host state is backupable, the
reinstall-then-backup instruction otherwise — and no phase of `Apply`
(asset copy, style transfer, extension or app injection) runs. -/
theorem versionGate_empty_always_aborts :
    ∀ (back : BackupStat) (spot : SpotStat) (answer : Bool)
      (destApplied replaceColors overwriteAssets exposeApis : Bool)
      (exts apps : List String) (hasPatch : Bool),
    back.isEmpty = true →
    (checkStates back spot answer).outcome = .exit1
    ∧ (checkStates back spot answer).prompt = none
    ∧ (checkStates back spot answer).messages =
        [if spot.isBackupable then .errNotBackedUp else .errNotBackedUpReinstall]
    ∧ applyRun back spot answer destApplied replaceColors overwriteAssets exposeApis
        exts apps hasPatch = [] := by
  intro back spot answer dA rC oA eA exts apps hP h
  refine ⟨?_, ?_, ?_, ?_⟩ <;> simp [checkStates, applyRun, h]

/-- C1 witness: a concrete Empty-backup input. -/
theorem versionGate_empty_always_aborts_witness :
    (checkStates ⟨true, false⟩ ⟨true, false, false⟩ true).outcome = .exit1
    ∧ (checkStates ⟨true, false⟩ ⟨true, false, false⟩ true).prompt = none
    ∧ (checkStates ⟨true, false⟩ ⟨true, false, false⟩ true).messages = [.errNotBackedUp]
    ∧ applyRun ⟨true, false⟩ ⟨true, false, false⟩ true false false false false [] [] false = [] :=
  versionGate_empty_always_aborts ⟨true, false⟩ ⟨true, false, false⟩ true
    false false false false [] [] false rfl

/-- C7: whenever the backup state is Outdated (and not Empty),
`checkStates` invokes the confirmation prompt with default answer `false`,
after emitting the mismatch warning plus the host-state-specific
instruction (Mixed first, then Stock, otherwise the reinstall
instruction); a declining answer exits the process with a non-zero status
before any phase of `Apply` runs, and an accepting answer lets the run
proceed. -/
theorem versionGate_outdated_warn_confirm :
    ∀ (back : BackupStat) (spot : SpotStat) (answer : Bool)
      (destApplied replaceColors overwriteAssets exposeApis : Bool)
      (exts apps : List String) (hasPatch : Bool),
    back.isEmpty = false → back.isOutdated = true →
    (checkStates back spot answer).prompt = some false
    ∧ (checkStates back spot answer).messages =
        .warnVersionMismatch ::
          (if spot.isMixed then [.infoJustUpdated, .infoRunBackupApply]
           else if spot.isStock then [.infoRunBackupApply]
           else [.infoReinstallThenBackup])
    ∧ (answer = false →
        (checkStates back spot answer).outcome = .exit1
        ∧ applyRun back spot answer destApplied replaceColors overwriteAssets exposeApis
            exts apps hasPatch = [])
    ∧ (answer = true → (checkStates back spot answer).outcome = .proceed) := by
  intro back spot answer dA rC oA eA exts apps hP h1 h2
  cases answer <;> simp [checkStates, applyRun, h1, h2]

/-- C7 witness: a concrete Outdated input with a declining answer. -/
theorem versionGate_outdated_warn_confirm_witness :
    (checkStates ⟨false, true⟩ ⟨true, true, false⟩ false).prompt = some false
    ∧ (checkStates ⟨false, true⟩ ⟨true, true, false⟩ false).messages =
        [.warnVersionMismatch, .infoJustUpdated, .infoRunBackupApply]
    ∧ (false = false →
        (checkStates ⟨false, true⟩ ⟨true, true, false⟩ false).outcome = .exit1
        ∧ applyRun ⟨false, true⟩ ⟨true, true, false⟩ false true false false false
            [] [] false = [])
    ∧ (false = true →
        (checkStates ⟨false, true⟩ ⟨true, true, false⟩ false).outcome = .proceed) :=
  versionGate_outdated_warn_confirm ⟨false, true⟩ ⟨true, true, false⟩ false
    true false false false [] [] false rfl rfl

/-- C4 counterexample: on a run with backup Current, a destination that
was never applied and themed mode on, both the raw copy and the themed
copy run — the destination is not populated by exactly one of the two
copy operations. -/
theorem assetCopy_both_copies_counterexample :
    Step.copyRaw ∈
      applyRun ⟨false, false⟩ ⟨false, false, false⟩ true false true false false [] [] false
    ∧ Step.copyThemed ∈
      applyRun ⟨false, false⟩ ⟨false, false, false⟩ true false true false false [] [] false := by
  decide

/-- C4 amended: in every run of `Apply` the whole copy phase precedes
every other phase (so the destination tree is fully populated before any
injection step), and the copy phase is: on a never-applied destination,
removal plus raw copy, followed by the themed copy as well when themed
mode is on (both copies run in that case); on an applied destination,
exactly one of the two copies (themed iff themed mode is on). -/
theorem assetCopy_phase_before_injection :
    ∀ (destApplied replaceColors overwriteAssets exposeApis : Bool)
      (exts apps : List String) (hasPatch : Bool),
    ∃ rest,
      applyMain destApplied replaceColors overwriteAssets exposeApis exts apps hasPatch =
        (if destApplied then (if replaceColors then [Step.copyThemed] else [Step.copyRaw])
         else if replaceColors then [Step.removeDest, Step.copyRaw, Step.copyThemed]
         else [Step.removeDest, Step.copyRaw]) ++ rest
      ∧ Step.removeDest ∉ rest ∧ Step.copyRaw ∉ rest ∧ Step.copyThemed ∉ rest := by
  intro dA rC oA eA exts apps hP
  refine ⟨[Step.updateCSS]
      ++ (if oA then [Step.updateAssets] else [])
      ++ (if eA then [Step.copyWrapper] else [])
      ++ [Step.additionalOptions]
      ++ (if exts.isEmpty then [] else [Step.transferExtensions exts, Step.nodeModuleSymlink])
      ++ (if apps.isEmpty then [] else [Step.transferApps apps])
      ++ (if hP then [Step.patchStep] else []), ?_, ?_, ?_, ?_⟩
  · cases dA <;> cases rC <;> simp [applyMain]
  all_goals cases oA <;> cases eA <;> cases hP <;> cases exts <;> cases apps <;> simp

/-- C4 witness: the amended characterization at a concrete input. -/
theorem assetCopy_phase_before_injection_witness :
    ∃ rest,
      applyMain false true false false [] [] false =
        [Step.removeDest, Step.copyRaw, Step.copyThemed] ++ rest
      ∧ Step.removeDest ∉ rest ∧ Step.copyRaw ∉ rest ∧ Step.copyThemed ∉ rest :=
  assetCopy_phase_before_injection false true false false [] [] false

/-- C2 counterexample: on a file with two consecutive directive lines, the
code (which resumes scanning *at* the substituted line) still processes
the second directive, while the claim's scanning rule (resume from the
line *after* the substituted line) would skip it: the two results differ
on a concrete content. -/
theorem extensionRemap_scan_resume_counterexample :
    remapContent
        "// spicetify_map\x7bqq\x7d\x7bzz\x7d\n// spicetify_map\x7bfoo\x7d\x7bbar\x7d\nfoo.f()"
      = some
        "// spicetify_map\x7bqq\x7d\x7bzz\x7d\n// spicetify_map\x7bfoo\x7d\x7bbar\x7d\nbar.f()"
    ∧ remapClaimContent
        "// spicetify_map\x7bqq\x7d\x7bzz\x7d\n// spicetify_map\x7bfoo\x7d\x7bbar\x7d\nfoo.f()"
      = "// spicetify_map\x7bqq\x7d\x7bzz\x7d\n// spicetify_map\x7bfoo\x7d\x7bbar\x7d\nfoo.f()"
    ∧ remapContent
        "// spicetify_map\x7bqq\x7d\x7bzz\x7d\n// spicetify_map\x7bfoo\x7d\x7bbar\x7d\nfoo.f()"
      ≠ some (remapClaimContent
        "// spicetify_map\x7bqq\x7d\x7bzz\x7d\n// spicetify_map\x7bfoo\x7d\x7bbar\x7d\nfoo.f()") := by
  refine ⟨by decide, by decide, by decide⟩

/-- C2 amended: for each line matching the directive pattern exactly the
first literal occurrence of token A in the immediately following line is
replaced by token B (one substitution per directive, each directive
affecting only its own following line), and scanning then continues
*with the substituted line itself* (so a directive line that immediately
follows another directive line is still processed); non-matching lines
are passed over unchanged, and the content
`"// spicetify_map\x7bfoo\x7d\x7bbar\x7d\nfoo.init()"` becomes a file
whose second line is `"bar.init()"` and whose first line is unchanged. -/
theorem extensionRemap_step_characterization :
    (∀ (lines : List String) (i fuel : Nat) (a b : String),
      findSymbolMap (lines.getD i "") = some (a, b) →
      i + 1 < lines.length →
      remapGo lines i (fuel + 1) =
        remapGo (lines.set (i + 1) (replaceFirst (lines.getD (i + 1) "") a b)) (i + 1) fuel)
    ∧ (∀ (lines : List String) (i fuel : Nat),
      findSymbolMap (lines.getD i "") = none →
      remapGo lines i (fuel + 1) = remapGo lines (i + 1) fuel)
    ∧ remapContent "// spicetify_map\x7bfoo\x7d\x7bbar\x7d\nfoo.init()"
        = some "// spicetify_map\x7bfoo\x7d\x7bbar\x7d\nbar.init()" := by
  refine ⟨?_, ?_, by decide⟩
  · intro lines i fuel a b h1 h2
    have h1a : findSymbolMap (lines[i]?.getD "") = some (a, b) := by simpa using h1
    simp [remapGo, h1a, h2]
  · intro lines i fuel h
    have ha : findSymbolMap (lines[i]?.getD "") = none := by simpa using h
    simp [remapGo, ha]

/-- C2 witness: the directive step at a concrete two-line content. -/
theorem extensionRemap_step_characterization_witness :
    remapGo ["// spicetify_map\x7bfoo\x7d\x7bbar\x7d", "foo.init()"] 0 2 =
      remapGo (["// spicetify_map\x7bfoo\x7d\x7bbar\x7d", "foo.init()"].set 1
        (replaceFirst
          (["// spicetify_map\x7bfoo\x7d\x7bbar\x7d", "foo.init()"].getD 1 "") "foo" "bar"))
        1 1 :=
  extensionRemap_step_characterization.1
    ["// spicetify_map\x7bfoo\x7d\x7bbar\x7d", "foo.init()"] 0 1 "foo" "bar"
    (by decide) (by decide)

/-- C3: a module-script content consisting of a single line that matches
the directive pattern (so the directive is on the last line) is a genuine
directive instance, yet the remap transformation does not complete: the
source assigns `lines[i+1]` with `i+1` equal to `len(lines)`, an
index-out-of-range runtime panic, modelled by `none` — not a defined
no-op. -/
theorem extensionRemap_lastLine_directive_panics :
    findSymbolMap "// spicetify_map\x7baa\x7d\x7bbb\x7d" = some ("aa", "bb")
    ∧ remapContent "// spicetify_map\x7baa\x7d\x7bbb\x7d" = none := by
  refine ⟨by decide, by decide⟩

/-! ### Helper lemmas shared by the app-bundler claims -/

theorem string_append_assoc (a b c : String) : a ++ b ++ c = a ++ (b ++ c) := by
  rcases a with ⟨la⟩
  rcases b with ⟨lb⟩
  rcases c with ⟨lc⟩
  show String.mk (la ++ lb ++ lc) = String.mk (la ++ (lb ++ lc))
  rw [List.append_assoc]

theorem joinLines_glue (a b : String) (l : List String) :
    joinLines ((a ++ "\n" ++ b) :: l) = a ++ "\n" ++ joinLines (b :: l) := by
  cases l with
  | nil => rfl
  | cons c t => simp [joinLines, string_append_assoc]

/-- The subfile-appending fold of `pushApps` equals the newline join of
the entry content with the readable subfile contents, the unreadable ones
skipped. -/
theorem foldl_subfiles_eq_joinLines (f : String → Option String) (subs : List String)
    (acc : String) :
    subs.foldl
      (fun a s => match f s with | none => a | some c => a ++ "\n" ++ c) acc
      = joinLines (acc :: subs.filterMap f) := by
  induction subs generalizing acc with
  | nil => rfl
  | cons s t ih =>
    cases hf : f s with
    | none => simp [List.foldl_cons, hf, List.filterMap_cons, ih]
    | some c =>
      simp only [List.foldl_cons, hf, List.filterMap_cons, ih, joinLines_glue]
      rfl

/-! ### Resolution and app-bundler claim theorems -/

/-- C8: for a non-absolute extension or custom-app name, the user folder
is checked first and the bundled folder second, the first match being
authoritative — a name existing in the user folder resolves there even
when it also exists in the bundled folder; a name existing in neither
resolves to a non-fatal per-item error, and the transfer loop still
processes every remaining item. -/
theorem resolution_user_folder_precedence :
    (∀ (fs : FS) (cfg : Config) (name : String),
      fs.stat (pathJoin cfg.userExtensionsFolder name) = true →
      getExtensionPath fs cfg name = .ok (pathJoin cfg.userExtensionsFolder name))
    ∧ (∀ (fs : FS) (cfg : Config) (name : String),
      fs.stat (pathJoin cfg.userExtensionsFolder name) = false →
      fs.stat (pathJoin (pathJoin cfg.exeDir "Extensions") name) = true →
      getExtensionPath fs cfg name = .ok (pathJoin (pathJoin cfg.exeDir "Extensions") name))
    ∧ (∀ (fs : FS) (cfg : Config) (name : String),
      fs.stat (pathJoin cfg.userExtensionsFolder name) = false →
      fs.stat (pathJoin (pathJoin cfg.exeDir "Extensions") name) = false →
      getExtensionPath fs cfg name = .error "Extension not found")
    ∧ (∀ (fs : FS) (cfg : Config) (name : String),
      fs.stat (pathJoin cfg.userAppsFolder name) = true →
      getCustomAppPath fs cfg name = .ok (pathJoin cfg.userAppsFolder name))
    ∧ (∀ (fs : FS) (cfg : Config) (name : String),
      fs.stat (pathJoin cfg.userAppsFolder name) = false →
      fs.stat (pathJoin (pathJoin cfg.exeDir "CustomApps") name) = true →
      getCustomAppPath fs cfg name = .ok (pathJoin (pathJoin cfg.exeDir "CustomApps") name))
    ∧ (∀ (fs : FS) (cfg : Config) (name : String),
      fs.stat (pathJoin cfg.userAppsFolder name) = false →
      fs.stat (pathJoin (pathJoin cfg.exeDir "CustomApps") name) = false →
      getCustomAppPath fs cfg name = .error "Custom app not found")
    ∧ (∀ (fs : FS) (cfg : Config) (isAbs : String → Bool) (v : String) (rest : List String),
      pushExtensionsModel fs cfg isAbs (v :: rest) =
        pushExtItem fs cfg isAbs v :: pushExtensionsModel fs cfg isAbs rest) := by
  refine ⟨?_, ?_, ?_, ?_, ?_, ?_, ?_⟩
  · intro fs cfg name h
    simp [getExtensionPath, h]
  · intro fs cfg name h1 h2
    simp [getExtensionPath, h1, h2]
  · intro fs cfg name h1 h2
    simp [getExtensionPath, h1, h2]
  · intro fs cfg name h
    simp [getCustomAppPath, h]
  · intro fs cfg name h1 h2
    simp [getCustomAppPath, h1, h2]
  · intro fs cfg name h1 h2
    simp [getCustomAppPath, h1, h2]
  · intro fs cfg isAbs v rest
    rfl

/-- A configuration with short folder names, used by concrete witnesses. -/
def cfgEx : Config :=
  { userExtensionsFolder := "ue", userAppsFolder := "ua", exeDir := "ex", appDestPath := "dest" }

/-- A file system where `a.js` exists in both the user extensions folder
and the bundled one. -/
def fsBoth : FS :=
  { stat := fun p => p == "ue/a.js" || p == "ex/Extensions/a.js"
    read := fun _ => none }

/-- C8 witness: `a.js` exists in both folders and resolves to the user
folder. -/
theorem resolution_user_folder_precedence_witness :
    getExtensionPath fsBoth cfgEx "a.js" = .ok "ue/a.js" :=
  resolution_user_folder_precedence.1 fsBoth cfgEx "a.js" rfl

/-- C9: a custom app whose directory resolves but whose `index.js` cannot
be read is skipped with the non-fatal does-not-have-index.js outcome, no
artifact write is attempted for it, and the loop still processes the
remaining apps. -/
theorem appBundler_missing_index_skips_app :
    ∀ (fs : FS) (cfg : Config) (writeOk : String → Bool) (app p : String)
      (rest : List String),
    getCustomAppPath fs cfg app = .ok p →
    fs.read (pathJoin p "index.js") = none →
    pushOneApp fs cfg writeOk app = .noIndex
    ∧ writesOf (pushOneApp fs cfg writeOk app) = []
    ∧ pushAppsModel fs cfg writeOk (app :: rest) =
        (app, AppResult.noIndex) :: pushAppsModel fs cfg writeOk rest := by
  intro fs cfg writeOk app p rest h1 h2
  have hmain : pushOneApp fs cfg writeOk app = .noIndex := by
    simp [pushOneApp, h1, h2]
  exact ⟨hmain, by simp [writesOf, hmain], by simp [pushAppsModel, hmain]⟩

/-- A file system with a resolvable app directory `ua/y` that has no
readable file at all. -/
def fsNoIndex : FS :=
  { stat := fun p => p == "ua/y", read := fun _ => none }

/-- C9 witness: the app `y` resolves but has no `index.js`. -/
theorem appBundler_missing_index_skips_app_witness :
    pushOneApp fsNoIndex cfgEx (fun _ => true) "y" = .noIndex
    ∧ writesOf (pushOneApp fsNoIndex cfgEx (fun _ => true) "y") = []
    ∧ pushAppsModel fsNoIndex cfgEx (fun _ => true) ["y"] =
        ("y", AppResult.noIndex) :: pushAppsModel fsNoIndex cfgEx (fun _ => true) [] :=
  appBundler_missing_index_skips_app fsNoIndex cfgEx (fun _ => true) "y" "ua/y" [] rfl rfl

/-- C5: a custom app whose manifest cannot be read gets the two-character
empty-object manifest `\x7b\x7d` substituted — it is written verbatim as
the `.json` artifact and the subfile concatenation uses the empty subfile
list, so the payload is the entry content alone; a manifest that reads
but fails to parse also leaves the payload the entry content alone and
still does not fail the app (the unparsable content is what gets written
verbatim). -/
theorem appManifest_fallback_empty_object :
    (∀ (fs : FS) (cfg : Config) (writeOk : String → Bool) (app p idx : String),
      getCustomAppPath fs cfg app = .ok p →
      fs.read (pathJoin p "index.js") = some idx →
      fs.read (pathJoin p "manifest.json") = none →
      pushOneApp fs cfg writeOk app =
        .done [(pathJoin (pathJoin cfg.appDestPath "xpui")
                  ("spicetify-routes-" ++ app ++ ".json"), "\x7b\x7d"),
               (pathJoin (pathJoin cfg.appDestPath "xpui")
                  ("spicetify-routes-" ++ app ++ ".js"),
                jsTemplate ("spicetify-routes-" ++ app) ("spicetify-routes-" ++ app) idx),
               (pathJoin (pathJoin cfg.appDestPath "xpui")
                  ("spicetify-routes-" ++ app ++ ".css"),
                (fs.read (pathJoin p "style.css")).getD "")])
    ∧ (∀ (fs : FS) (cfg : Config) (writeOk : String → Bool) (app p idx m : String),
      getCustomAppPath fs cfg app = .ok p →
      fs.read (pathJoin p "index.js") = some idx →
      fs.read (pathJoin p "manifest.json") = some m →
      parseManifest m = none →
      pushOneApp fs cfg writeOk app =
        .done [(pathJoin (pathJoin cfg.appDestPath "xpui")
                  ("spicetify-routes-" ++ app ++ ".json"), m),
               (pathJoin (pathJoin cfg.appDestPath "xpui")
                  ("spicetify-routes-" ++ app ++ ".js"),
                jsTemplate ("spicetify-routes-" ++ app) ("spicetify-routes-" ++ app) idx),
               (pathJoin (pathJoin cfg.appDestPath "xpui")
                  ("spicetify-routes-" ++ app ++ ".css"),
                (fs.read (pathJoin p "style.css")).getD "")]) := by
  have hempty : parseManifest "\x7b\x7d" = some [] := by decide
  constructor
  · intro fs cfg writeOk app p idx h1 h2 h3
    simp [pushOneApp, h1, h2, h3, hempty]
  · intro fs cfg writeOk app p idx m h1 h2 h3 h4
    simp [pushOneApp, h1, h2, h3, h4]

/-- A file system with app directory `ua/z` that has only an `index.js`
(no manifest, no stylesheet). -/
def fsNoManifest : FS :=
  { stat := fun p => p == "ua/z"
    read := fun p => if p = "ua/z/index.js" then some "IDX" else none }

/-- C5 witness: app `z` with a missing manifest writes `\x7b\x7d` and a
payload equal to the entry content. -/
theorem appManifest_fallback_empty_object_witness :
    pushOneApp fsNoManifest cfgEx (fun _ => true) "z" =
      .done [("dest/xpui/spicetify-routes-z.json", "\x7b\x7d"),
             ("dest/xpui/spicetify-routes-z.js",
              jsTemplate "spicetify-routes-z" "spicetify-routes-z" "IDX"),
             ("dest/xpui/spicetify-routes-z.css", "")] :=
  appManifest_fallback_empty_object.1 fsNoManifest cfgEx (fun _ => true) "z" "ua/z" "IDX"
    rfl rfl rfl

/-- C6: for an app with a readable entry script and a parsed manifest,
the written `.js` chunk is the fixed template with both substituted name
fields equal to `spicetify-routes-` + app name, and its inner payload is
the entry content joined by a newline with each readable manifest-listed
subfile's content in manifest order, the unreadable subfiles silently
skipped. -/
theorem appBundler_payload_concatenation :
    ∀ (fs : FS) (cfg : Config) (writeOk : String → Bool) (app p idx m : String)
      (subs : List String),
    getCustomAppPath fs cfg app = .ok p →
    fs.read (pathJoin p "index.js") = some idx →
    fs.read (pathJoin p "manifest.json") = some m →
    parseManifest m = some subs →
    pushOneApp fs cfg writeOk app =
      .done [(pathJoin (pathJoin cfg.appDestPath "xpui")
                ("spicetify-routes-" ++ app ++ ".json"), m),
             (pathJoin (pathJoin cfg.appDestPath "xpui")
                ("spicetify-routes-" ++ app ++ ".js"),
              jsTemplate ("spicetify-routes-" ++ app) ("spicetify-routes-" ++ app)
                (joinLines (idx :: subs.filterMap (fun sub => fs.read (pathJoin p sub))))),
             (pathJoin (pathJoin cfg.appDestPath "xpui")
                ("spicetify-routes-" ++ app ++ ".css"),
              (fs.read (pathJoin p "style.css")).getD "")] := by
  intro fs cfg writeOk app p idx m subs h1 h2 h3 h4
  have hfold := foldl_subfiles_eq_joinLines (fun sub => fs.read (pathJoin p sub)) subs idx
  simp [pushOneApp, h1, h2, h3, h4, hfold]

/-- A file system with app directory `ua/x` holding `index.js` = "A",
`extra.js` = "B" and a manifest listing `extra.js`. -/
def fsSubfiles : FS :=
  { stat := fun p => p == "ua/x"
    read := fun p =>
      if p = "ua/x/index.js" then some "A"
      else if p = "ua/x/manifest.json" then some "\x7b\"subfiles\":[\"extra.js\"]\x7d"
      else if p = "ua/x/extra.js" then some "B"
      else none }

/-- C6 witness: the spec's concrete example — manifest
`\x7b"subfiles":["extra.js"]\x7d`, `index.js` = "A", `extra.js` = "B"
yields the wrapped chunk with inner payload `"A\nB"`. -/
theorem appBundler_payload_concatenation_witness :
    pushOneApp fsSubfiles cfgEx (fun _ => true) "x" =
      .done [("dest/xpui/spicetify-routes-x.json", "\x7b\"subfiles\":[\"extra.js\"]\x7d"),
             ("dest/xpui/spicetify-routes-x.js",
              jsTemplate "spicetify-routes-x" "spicetify-routes-x" "A\nB"),
             ("dest/xpui/spicetify-routes-x.css", "")] := by
  have h := appBundler_payload_concatenation fsSubfiles cfgEx (fun _ => true) "x" "ua/x"
    "A" "\x7b\"subfiles\":[\"extra.js\"]\x7d" ["extra.js"] rfl rfl rfl (by decide)
  exact h.trans (by decide)

/-- C10: the error value returned by each of the three `os.WriteFile`
calls of `pushApps` is discarded — the per-app outcomes, the reported
errors and the set of attempted writes are identical under any two
write-success oracles, and the loop processes each app and the following
ones exactly as if every write had succeeded. -/
theorem appWrites_errors_discarded :
    (∀ (fs : FS) (cfg : Config) (w1 w2 : String → Bool) (list : List String),
      pushAppsModel fs cfg w1 list = pushAppsModel fs cfg w2 list)
    ∧ (∀ (fs : FS) (cfg : Config) (writeOk : String → Bool) (app : String)
        (rest : List String),
      pushAppsModel fs cfg writeOk (app :: rest) =
        (app, pushOneApp fs cfg writeOk app) :: pushAppsModel fs cfg writeOk rest) := by
  constructor
  · intro fs cfg w1 w2 list
    rfl
  · intro fs cfg writeOk app rest
    rfl

end SpicetifyApply
